import Mathlib

/-!
Verification of the TOS strategy-report decoder (`src/app/src/tos_quote_parser.py`,
class `TosQuoteParser`).  The Python code is shallowly embedded: strings are
`String`/`List Char`, Python `float` values are modelled as exact rationals `ℚ`
(only parsing happens, no arithmetic), and Python exceptions (`ValueError` from
`int`/`float`, `IndexError` from list indexing, the `AssertionError` from the
directory-existence assert) are modelled by `Except Err`.

Python primitives are re-implemented over `List Char`:
  * `splitChar c` models `str.split(c)` for a one-character separator;
  * `containsL hay pat` models `pat in hay`;
  * `pyIntChars?` models `int(s)` (optional surrounding whitespace, optional
    sign, decimal digits; the rarely used underscore digit separators of
    Python 3.6+ are not modelled — no input in this development contains them);
  * `pyFloatChars?` models the numeric-literal fragment of `float(s)`
    (whitespace, sign, digits, optional fraction and exponent; the special
    spellings `inf`/`infinity`/`nan` are not modelled);
  * `intToChars` models `str(i)` for an `int`;
  * `stemChars` models `pathlib.Path(name).stem` for plain file names.
-/

/-- Characters treated as whitespace by Python `str.strip` / `int` / `float`. -/
def isSpaceC (c : Char) : Bool :=
  c == ' ' || c == '\t' || c == '\n' || c == '\r' || c == '\x0b' || c == '\x0c'

/-- Numeric value of a decimal digit character, `none` otherwise. -/
def digitVal (c : Char) : Option Nat :=
  if c.isDigit then some (c.toNat - 48) else none

/-- The decimal digit character for `n < 10` (junk `*` otherwise, never used). -/
def digitChar : Nat → Char
  | 0 => '0' | 1 => '1' | 2 => '2' | 3 => '3' | 4 => '4'
  | 5 => '5' | 6 => '6' | 7 => '7' | 8 => '8' | 9 => '9'
  | _ => '*'

/-- Strip leading and trailing Python whitespace. -/
def stripSpaces (l : List Char) : List Char :=
  ((l.dropWhile isSpaceC).reverse.dropWhile isSpaceC).reverse

/-- Accumulator loop of decimal-digit parsing: fails at the first non-digit. -/
def parseDigitsGo (acc : Nat) : List Char → Option Nat
  | [] => some acc
  | c :: cs =>
    match digitVal c with
    | some d => parseDigitsGo (acc * 10 + d) cs
    | none => none

/-- Parse a nonempty all-digit string to its value; `none` otherwise. -/
def parseDigits (l : List Char) : Option Nat :=
  if l.isEmpty then none else parseDigitsGo 0 l

/-- Model of Python `int(s)`: optional whitespace, optional sign, digits. -/
def pyIntChars? (l : List Char) : Option Int :=
  let t := stripSpaces l
  if t.head? = some '-' then (parseDigits t.tail).map (fun n => -(n : Int))
  else if t.head? = some '+' then (parseDigits t.tail).map (fun n => (n : Int))
  else (parseDigits t).map (fun n => (n : Int))

/-- Fuel-driven decimal printing of a natural number (the fuel only bounds the
recursion depth; `natDigits` always supplies enough). -/
def natDigitsAux : Nat → Nat → List Char
  | 0, _ => []
  | f + 1, n =>
    if n < 10 then [digitChar n]
    else natDigitsAux f (n / 10) ++ [digitChar (n % 10)]

/-- Decimal digits of a natural number. -/
def natDigits (n : Nat) : List Char := natDigitsAux (n + 1) n

/-- Model of Python `str(i)` for an `int` value. -/
def intToChars (i : Int) : List Char :=
  if i < 0 then '-' :: natDigits i.natAbs else natDigits i.toNat

/-- Model of `s.split(c)` for a single-character separator: non-overlapping
splits keeping empty pieces; never returns the empty list. -/
def splitChar (c : Char) : List Char → List (List Char)
  | [] => [[]]
  | x :: xs =>
    if x = c then [] :: splitChar c xs
    else
      match splitChar c xs with
      | [] => [[x]]
      | p :: ps => (x :: p) :: ps

/-- Does `pat` occur at the start of `l`? -/
def startsWithL : List Char → List Char → Bool
  | [], _ => true
  | _ :: _, [] => false
  | p :: ps, c :: cs => p == c && startsWithL ps cs

/-- Model of Python `pat in hay` (substring containment). -/
def containsL (hay pat : List Char) : Bool :=
  match hay with
  | [] => startsWithL pat []
  | _ :: rest => startsWithL pat hay || containsL rest pat

/-- `split(sep)[-1]`: last piece of a split (total: a split is never empty). -/
def lastD (l : List (List Char)) : List Char := l.getLastD []

/-- Signed all-digits integer (used for `float` exponents): the whole input
must be `[+-]?digits`. -/
def signedAll (l : List Char) : Option Int :=
  if l.head? = some '-' then (parseDigits l.tail).map (fun n => -(n : Int))
  else if l.head? = some '+' then (parseDigits l.tail).map (fun n => (n : Int))
  else (parseDigits l).map (fun n => (n : Int))

/-- Value of an all-digit string (used only on `takeWhile isDigit` output). -/
def digitsNat (l : List Char) : Nat :=
  l.foldl (fun a c => a * 10 + ((digitVal c).getD 0)) 0

/-- Optional exponent tail of a `float` literal: empty, or `[eE][+-]?digits`
consuming the whole remainder. -/
def expTail (mant : ℚ) (l : List Char) : Option ℚ :=
  match l with
  | [] => some mant
  | c :: r =>
    if c = 'e' ∨ c = 'E' then
      match signedAll r with
      | some e => some (mant * (10 : ℚ) ^ e)
      | none => none
    else none

/-- Unsigned part of a `float` literal: `digits [. digits] [exp]` with at
least one mantissa digit. -/
def floatMag (l : List Char) : Option ℚ :=
  let ip := l.takeWhile Char.isDigit
  let r1 := l.dropWhile Char.isDigit
  match r1 with
  | [] => if ip.isEmpty then none else some ((digitsNat ip : ℚ))
  | c :: r2 =>
    if c = '.' then
      let fp := r2.takeWhile Char.isDigit
      let r3 := r2.dropWhile Char.isDigit
      if ip.isEmpty && fp.isEmpty then none
      else expTail ((digitsNat ip : ℚ) + (digitsNat fp : ℚ) / (10 : ℚ) ^ fp.length) r3
    else if c = 'e' ∨ c = 'E' then
      if ip.isEmpty then none
      else
        match signedAll r2 with
        | some e => some ((digitsNat ip : ℚ) * (10 : ℚ) ^ e)
        | none => none
    else none

/-- Model of Python `float(s)` on numeric literals (`inf`/`nan` not modelled). -/
def pyFloatChars? (l : List Char) : Option ℚ :=
  let t := stripSpaces l
  if t.head? = some '-' then (floatMag t.tail).map (fun q => -q)
  else if t.head? = some '+' then floatMag t.tail
  else floatMag t

/-- Model of `pathlib.Path(name).stem`: the name with the suffix after the
last dot removed, unless that dot is the first or last character. -/
def stemChars (cs : List Char) : List Char :=
  if cs.reverse.takeWhile (fun c => c ≠ '.') = [] then cs
  else
    match cs.reverse.dropWhile (fun c => c ≠ '.') with
    | [] => cs
    | _ :: rest => if rest = [] then cs else rest.reverse

/-!
## Data model and error taxonomy

`Err` models the Python exceptions the parser can raise:
  * `notFound`  — the `AssertionError` raised by the `data_folder.exists()`
    assert in `get_data_files` (the spec's `NotFoundError` taxonomy entry);
  * `indexError` — `IndexError` from list indexing (`stem.split('_')[1]`,
    `date_parts[1]`);
  * `badFloat s` — `ValueError` raised by `float(s)`; the payload is the
    offending text, exactly what the Python message carries;
  * `badInt s` — `ValueError` raised by `int(s)`.
-/

inductive Err where
  | notFound
  | indexError
  | badFloat (s : String)
  | badInt (s : String)
deriving DecidableEq

/-- One decoded OHLC row: the `[current_date, open_price, high_price,
low_price, close_price]` list appended to `data` in the source. -/
structure Record where
  date : String
  openPrice : ℚ
  highPrice : ℚ
  lowPrice : ℚ
  closePrice : ℚ
deriving DecidableEq

/-- Decoder state of `convert_tos_strategy_report`: the `current_date`
variable (Python `None` ↦ `none`) and the `data` accumulator, in emission
order. -/
structure DecState where
  currentDate : Option String
  data : List Record
deriving DecidableEq

def initState : DecState := ⟨none, []⟩

def sohlcpMark : List Char := "SOHLCP".data

def sellCloseMark : List Char := "SellClose".data

/-!
## Line decoder (`convert_tos_strategy_report`, lines 115–139)
-/

/-- `parts = line.split('|')` followed by
`parts = [part.replace(',', '') for part in parts]`. -/
def dataParts (line : String) : List (List Char) :=
  (splitChar '|' line.data).map (fun p => p.filter (fun c => c ≠ ','))

/-- The `'SOHLCP' in line` branch: with at least six fields and a truthy
`current_date`, parse fields 2–5 as floats (first failure raises, as
`float` does) and append a record; otherwise the line is dropped. -/
def stepData (st : DecState) (parts : List (List Char)) : Except Err DecState :=
  match st.currentDate with
  | none => .ok st
  | some d =>
    if 6 ≤ parts.length ∧ d ≠ "" then
      match pyFloatChars? (parts.getD 2 []) with
      | none => .error (Err.badFloat (String.mk (parts.getD 2 [])))
      | some o =>
        match pyFloatChars? (parts.getD 3 []) with
        | none => .error (Err.badFloat (String.mk (parts.getD 3 [])))
        | some hi =>
          match pyFloatChars? (parts.getD 4 []) with
          | none => .error (Err.badFloat (String.mk (parts.getD 4 [])))
          | some lo =>
            match pyFloatChars? (parts.getD 5 []) with
            | none => .error (Err.badFloat (String.mk (parts.getD 5 [])))
            | some cl => .ok { st with data := st.data ++ [⟨d, o, hi, lo, cl⟩] }
    else .ok st

/-- Date handling inside the `'SellClose' in line` branch: if the sixth field
contains `/` and its trailing slash-component has exactly two characters, the
new `current_date` is `f"{parts[0]}/{parts[1]}/{2000 + int(parts[-1])}"`;
otherwise the field itself becomes the new `current_date`. -/
def stepDate (st : DecState) (ds : List Char) : Except Err DecState :=
  if containsL ds ['/'] = true ∧ (lastD (splitChar '/' ds)).length = 2 then
    match pyIntChars? (lastD (splitChar '/' ds)) with
    | none => .error (Err.badInt (String.mk (lastD (splitChar '/' ds))))
    | some y =>
      let nd := String.mk ((splitChar '/' ds).getD 0 [] ++ '/' ::
        (splitChar '/' ds).getD 1 [] ++ '/' :: intToChars (2000 + y))
      .ok { st with currentDate := some nd }
  else .ok { st with currentDate := some (String.mk ds) }

/-- The `'SellClose' in line` branch: split on `;`; only lines with at least
six fields update the trade-date context. -/
def stepClose (st : DecState) (columns : List (List Char)) : Except Err DecState :=
  if 6 ≤ columns.length then stepDate st (columns.getD 5 [])
  else .ok st

/-- One loop iteration of the decoder: `if 'SOHLCP' in line … elif
'SellClose' in line … else ignore`. -/
def step (st : DecState) (line : String) : Except Err DecState :=
  if containsL line.data sohlcpMark then stepData st (dataParts line)
  else if containsL line.data sellCloseMark then stepClose st (splitChar ';' line.data)
  else .ok st

/-- The decoder loop over the lines of one file; a raised exception aborts
the whole decode. -/
def runLines (st : DecState) : List String → Except Err DecState
  | [] => .ok st
  | l :: ls =>
    match step st l with
    | .error e => .error e
    | .ok st2 => runLines st2 ls

/-- The Line Decoder stage: raw records in file order. -/
def decodeTos (lines : List String) : Except Err (List Record) :=
  match runLines initState lines with
  | .error e => .error e
  | .ok st => .ok st.data

/-!
## Year correction (`correct_year`, lines 41–58)
-/

/-- `int(record['date'].split('/')[-1])`, as the code evaluates it. -/
def yearE (date : String) : Except Err Int :=
  match pyIntChars? (lastD (splitChar '/' date.data)) with
  | some y => .ok y
  | none => .error (Err.badInt (String.mk (lastD (splitChar '/' date.data))))

/-- The rewrite of one record inside the correction loop:
`year = int(date_parts[-1]) - 100` then
`f"{date_parts[0]}/{date_parts[1]}/{year}"` (an `IndexError` if the date has
fewer than two slash-components). -/
def subtract100 (r : Record) : Except Err Record :=
  match pyIntChars? (lastD (splitChar '/' r.date.data)) with
  | none => .error (Err.badInt (String.mk (lastD (splitChar '/' r.date.data))))
  | some y =>
    match (splitChar '/' r.date.data).get? 0, (splitChar '/' r.date.data).get? 1 with
    | some p0, some p1 =>
      .ok { r with date := String.mk (p0 ++ '/' :: p1 ++ '/' :: intToChars (y - 100)) }
    | _, _ => .error Err.indexError

/-- The inner `for j in range(i, len(df))` loop: rewrite every remaining
record. -/
def rewriteFrom : List Record → Except Err (List Record)
  | [] => .ok []
  | r :: rest =>
    match subtract100 r with
    | .error e => .error e
    | .ok r2 =>
      match rewriteFrom rest with
      | .error e => .error e
      | .ok rest2 => .ok (r2 :: rest2)

/-- The outer scan `for i in range(1, len(df))`, carrying the previous
record; at the first pair with `current_year > previous_year` it rewrites the
rest and stops. -/
def scanCY (prev : Record) : List Record → Except Err (List Record)
  | [] => .ok []
  | cur :: rest =>
    match yearE cur.date with
    | .error e => .error e
    | .ok cy =>
      match yearE prev.date with
      | .error e => .error e
      | .ok py =>
        if py < cy then rewriteFrom (cur :: rest)
        else
          match scanCY cur rest with
          | .error e => .error e
          | .ok rest2 => .ok (cur :: rest2)

/-- `TosQuoteParser.correct_year` on the rows of the frame. -/
def correctYear : List Record → Except Err (List Record)
  | [] => .ok []
  | r :: rest =>
    match scanCY r rest with
    | .error e => .error e
    | .ok rest2 => .ok (r :: rest2)

/-!
## Whole-file conversion (`convert_tos_strategy_report`, lines 106–155)

The returned pair is (output CSV file name, emitted rows): the source writes
`adjusted_df` to `f"{symbol}.csv"` and returns that path.  The frame built
from `data` is reversed (`df.iloc[::-1]`) before `correct_year`.
-/

def convertTosStrategyReport (fileName : String) (lines : List String) :
    Except Err (String × List Record) :=
  match (splitChar '_' (stemChars fileName.data)).get? 1 with
  | none => .error Err.indexError
  | some symPart =>
    match runLines initState lines with
    | .error e => .error e
    | .ok st =>
      match correctYear st.data.reverse with
      | .error e => .error e
      | .ok adjusted => .ok (String.mk (symPart.map Char.toLower) ++ ".csv", adjusted)

/-!
## File selection (`get_data_files`, lines 16–39)

The directory is modelled as `Option (List DirEntry)` (`none` = the directory
does not exist, in which case the `assert` raises).  `re.match` anchors at
the start only; `[A-Za-z]{3,4}` is greedy with backtracking, `\d+` is greedy.
-/

structure DirEntry where
  name : String
  isFile : Bool

def isAlphaC (c : Char) : Bool :=
  ('A' ≤ c && c ≤ 'Z') || ('a' ≤ c && c ≤ 'z')

/-- Strip `pat` from the front of `cs` if it is a prefix. -/
def dropStart : List Char → List Char → Option (List Char)
  | [], cs => some cs
  | _ :: _, [] => none
  | p :: ps, c :: cs => if p = c then dropStart ps cs else none

/-- Match `_\d+\.csv` at the start of `cs` (rest unconstrained, as
`re.match` does not anchor the end). -/
def matchTailNum (cs : List Char) : Bool :=
  match cs with
  | '_' :: rest =>
    !(rest.takeWhile Char.isDigit).isEmpty &&
      startsWithL ".csv".data (rest.dropWhile Char.isDigit)
  | _ => false

/-- `re.match(r"StrategyReports_([A-Za-z]{3,4})_\d+\.csv", name)`, returning
the captured ticker group. -/
def matchVendor (cs : List Char) : Option (List Char) :=
  match dropStart "StrategyReports_".data cs with
  | none => none
  | some rest =>
    if (rest.take 4).length = 4 ∧ (rest.take 4).all isAlphaC ∧ matchTailNum (rest.drop 4) then
      some (rest.take 4)
    else if (rest.take 3).length = 3 ∧ (rest.take 3).all isAlphaC ∧ matchTailNum (rest.drop 3) then
      some (rest.take 3)
    else none

/-- `re.match(r"([A-Za-z]{3,4})\.csv", name)`, returning the captured group. -/
def matchPlain (cs : List Char) : Option (List Char) :=
  if (cs.take 4).length = 4 ∧ (cs.take 4).all isAlphaC ∧
      startsWithL ".csv".data (cs.drop 4) then
    some (cs.take 4)
  else if (cs.take 3).length = 3 ∧ (cs.take 3).all isAlphaC ∧
      startsWithL ".csv".data (cs.drop 3) then
    some (cs.take 3)
  else none

/-- `ticker_files[ticker] = file_path` on a Python dict: an existing key is
updated in place, a new key appended (insertion order preserved). -/
def insertLWW : List (String × String) → String → String → List (String × String)
  | [], k, v => [(k, v)]
  | (k2, v2) :: rest, k, v =>
    if k2 = k then (k, v) :: rest else (k2, v2) :: insertLWW rest k v

/-- `TosQuoteParser.get_data_files`: assert the directory exists, then build
the ticker → file mapping from the entries that are files and match the
pattern selected by `use_tos_report`. -/
def getDataFiles (folder : Option (List DirEntry)) (useTosReport : Bool) :
    Except Err (List (String × String)) :=
  match folder with
  | none => .error Err.notFound
  | some entries =>
    .ok (entries.foldl
      (fun m e =>
        if e.isFile then
          match (if useTosReport then matchVendor e.name.data else matchPlain e.name.data) with
          | some t => insertLWW m (String.mk t) e.name
          | none => m
        else m) [])

/-!
## Well-formed dates and the specification-side view of the rewrite

A date is well formed when it has exactly three slash-components (the
`MM/DD/YYYY` shape of the spec's data model) and its trailing component
parses as an integer.  On well-formed dates the rewrite of the inner
correction loop is exactly "replace the year component by year − 100",
captured by the pure function `specSub100`.
-/

def WFDate (s : String) : Prop :=
  (splitChar '/' s.data).length = 3 ∧ (pyIntChars? (lastD (splitChar '/' s.data))).isSome

instance (s : String) : Decidable (WFDate s) :=
  inferInstanceAs (Decidable (_ ∧ _))

/-- The year component of a date string, as the code reads it
(`int(date.split('/')[-1])`), with junk value 0 if it does not parse. -/
def yearDs (s : String) : Int := (pyIntChars? (lastD (splitChar '/' s.data))).getD 0

/-- The year component of a record's date. -/
def yearD (r : Record) : Int := yearDs r.date

/-- Pure view of one step of the inner correction loop on a well-formed
record: keep the first two slash-components, replace the year by
year − 100. -/
def specSub100 (r : Record) : Record :=
  { r with date := String.mk ((splitChar '/' r.date.data).getD 0 [] ++ '/' ::
      (splitChar '/' r.date.data).getD 1 [] ++ '/' :: intToChars (yearD r - 100)) }

/-- Python truthiness of the `current_date` variable: `None` and the empty
string are falsy, so the data branch drops its line for both. -/
def truthy : Option String → Bool
  | none => false
  | some d => !(d == "")

/-- Years never increase along consecutive records: exactly the condition
under which the correction scan finds no trigger pair. -/
def NonIncYears (l : List Record) : Prop :=
  List.Chain' (fun a b => yearD b ≤ yearD a) l

def chainYearsDec : (l : List Record) → Decidable (List.Chain' (fun x y => yearD y ≤ yearD x) l)
  | [] => isTrue List.chain'_nil
  | [_] => isTrue (List.chain'_singleton _)
  | a :: b :: rest =>
    letI := chainYearsDec (b :: rest)
    decidable_of_iff (yearD b ≤ yearD a ∧ List.Chain' (fun x y => yearD y ≤ yearD x) (b :: rest))
      (@List.chain'_cons Record (fun x y => yearD y ≤ yearD x) a b rest).symm

instance (l : List Record) : Decidable (NonIncYears l) := chainYearsDec l

/-- The single-rollover input shape the year-correction heuristic models:
years non-increasing except for exactly one adjacent increase of at most
100. -/
def SingleRollover (l : List Record) : Prop :=
  ∃ pre a b suf, l = pre ++ a :: b :: suf ∧ NonIncYears (pre ++ [a]) ∧
    yearD a < yearD b ∧ yearD b ≤ yearD a + 100 ∧ NonIncYears (b :: suf)

/-- The sixth semicolon-separated field of a line (`line.split(';')[5]`). -/
def sixthField (line : String) : List Char := (splitChar ';' line.data).getD 5 []

/-!
## Concrete inputs used by the counterexamples and witnesses

Lines carry the trailing newline exactly as Python file iteration yields
them; the close-marker lines carry a seventh field so that the date field is
interior, as in real vendor reports.
-/

/-- The spec's end-to-end synthetic file: a close-marker line dated
`12/31/99`, a data-marker line `100|105|99|102`, a close-marker line dated
`01/02/00`, a data-marker line `102|103|101|101`, in that order. -/
def c1File : List String :=
  ["SellClose;a;b;c;d;12/31/99;x\n",
   "SOHLCP|q|100|105|99|102\n",
   "SellClose;a;b;c;d;01/02/00;x\n",
   "SOHLCP|q|102|103|101|101\n"]

/-- The record decoded from the `01/02/00` close marker and the second data
line. -/
def rec20000102 : Record := ⟨"01/02/2000", 102, 103, 101, 101⟩

/-- The first data line's record after year correction. -/
def rec19991231 : Record := ⟨"12/31/1999", 100, 105, 99, 102⟩

/-- The first data line's record before year correction (naive `2000+99`
expansion). -/
def rec20991231 : Record := ⟨"12/31/2099", 100, 105, 99, 102⟩

/-- Chronological records carrying the raw years `[2023, 2024, 2099, 2099,
2000]` of the spec's P3 scenario (distinct prices, to observe that non-date
fields are preserved). -/
def c2Input : List Record :=
  [⟨"01/15/2023", 10, 11, 12, 13⟩, ⟨"02/15/2024", 20, 21, 22, 23⟩,
   ⟨"03/15/2099", 30, 31, 32, 33⟩, ⟨"04/15/2099", 40, 41, 42, 43⟩,
   ⟨"05/15/2000", 50, 51, 52, 53⟩]

/-- What `correct_year` actually returns on `c2Input`: the scan triggers at
the first increasing pair (2023 → 2024) and subtracts 100 from there on. -/
def c2Actual : List Record :=
  [⟨"01/15/2023", 10, 11, 12, 13⟩, ⟨"02/15/1924", 20, 21, 22, 23⟩,
   ⟨"03/15/1999", 30, 31, 32, 33⟩, ⟨"04/15/1999", 40, 41, 42, 43⟩,
   ⟨"05/15/1900", 50, 51, 52, 53⟩]

/-- The output the claim expects on `c2Input` (years `[2023, 2024, 1999,
1999, 2000]`). -/
def c2Claimed : List Record :=
  [⟨"01/15/2023", 10, 11, 12, 13⟩, ⟨"02/15/2024", 20, 21, 22, 23⟩,
   ⟨"03/15/1999", 30, 31, 32, 33⟩, ⟨"04/15/1999", 40, 41, 42, 43⟩,
   ⟨"05/15/2000", 50, 51, 52, 53⟩]

/-- An already-monotonic (non-decreasing years 2023 ≤ 2024) sequence. -/
def c5Input : List Record :=
  [⟨"01/01/2023", 10, 11, 12, 13⟩, ⟨"01/01/2024", 20, 21, 22, 23⟩]

/-- What `correct_year` actually returns on `c5Input`. -/
def c5Actual : List Record :=
  [⟨"01/01/2023", 10, 11, 12, 13⟩, ⟨"01/01/1924", 20, 21, 22, 23⟩]

/-- A close-marker line whose date field `1/2/3/99` has four
slash-components with a two-character trailing component. -/
def c6Line : String := "SellClose;a;b;c;d;1/2/3/99;x\n"

/-- A file whose malformed data-marker line (`abc` in field 2) is its second
line. -/
def c7FileA : List String :=
  ["SellClose;a;b;c;d;12/31/99;x\n",
   "SOHLCP|q|abc|105|99|102\n"]

/-- A file with the same malformed data-marker line as its third line. -/
def c7FileB : List String :=
  ["SellClose;a;b;c;d;12/31/99;x\n",
   "SOHLCP|q|100|105|99|102\n",
   "SOHLCP|q|abc|105|99|102\n"]

deriving instance DecidableEq for Except

/-!
## Helper lemmas: `splitChar`
-/

theorem splitChar_ne_nil (c : Char) (l : List Char) : splitChar c l ≠ [] := by
  induction l with
  | nil => simp [splitChar]
  | cons x xs ih =>
    simp only [splitChar]
    by_cases h : x = c
    · simp [h]
    · simp only [if_neg h]
      cases hs : splitChar c xs with
      | nil => simp
      | cons p ps => simp

theorem splitChar_no_sep (c : Char) (l : List Char) (h : c ∉ l) : splitChar c l = [l] := by
  induction l with
  | nil => rfl
  | cons x xs ih =>
    simp only [List.mem_cons, not_or] at h
    have hx : x ≠ c := fun he => h.1 he.symm
    simp only [splitChar, if_neg hx, ih h.2]

theorem splitChar_pre_sep (c : Char) (p rest : List Char) (hp : c ∉ p) :
    splitChar c (p ++ c :: rest) = p :: splitChar c rest := by
  induction p with
  | nil => simp [splitChar]
  | cons x xs ih =>
    simp only [List.mem_cons, not_or] at hp
    have hx : x ≠ c := fun he => hp.1 he.symm
    simp only [List.cons_append, splitChar, if_neg hx, List.append_eq]
    rw [ih hp.2]

theorem not_mem_of_mem_splitChar (c : Char) (l p : List Char)
    (hp : p ∈ splitChar c l) : c ∉ p := by
  induction l generalizing p with
  | nil =>
    simp only [splitChar, List.mem_singleton] at hp
    subst hp; simp
  | cons x xs ih =>
    by_cases h : x = c
    · simp only [splitChar, if_pos h] at hp
      rcases List.mem_cons.mp hp with h1 | h1
      · subst h1; simp
      · exact ih p h1
    · simp only [splitChar, if_neg h] at hp
      cases hs : splitChar c xs with
      | nil => exact absurd hs (splitChar_ne_nil c xs)
      | cons q qs =>
        rw [hs] at hp
        rcases List.mem_cons.mp hp with h1 | h1
        · subst h1
          intro hc
          rcases List.mem_cons.mp hc with h2 | h2
          · exact h h2.symm
          · have hq : q ∈ splitChar c xs := by
              rw [hs]; exact List.mem_cons_self q qs
            exact ih q hq h2
        · exact ih p (by rw [hs]; exact List.mem_cons_of_mem q h1)

theorem splitChar_three (c : Char) (p0 p1 y : List Char)
    (h0 : c ∉ p0) (h1 : c ∉ p1) (h2 : c ∉ y) :
    splitChar c (p0 ++ c :: (p1 ++ c :: y)) = [p0, p1, y] := by
  rw [splitChar_pre_sep c p0 _ h0, splitChar_pre_sep c p1 y h1, splitChar_no_sep c y h2]

/-!
## Helper lemmas: decimal printing/parsing roundtrip
-/

theorem digitVal_digitChar (n : Nat) (h : n < 10) : digitVal (digitChar n) = some n := by
  interval_cases n <;> rfl

theorem digitChar_isDigit (n : Nat) (h : n < 10) : (digitChar n).isDigit = true := by
  interval_cases n <;> rfl

theorem natDigitsAux_ne_nil (f n : Nat) (h : n < f) : natDigitsAux f n ≠ [] := by
  cases f with
  | zero => omega
  | succ f2 =>
    simp only [natDigitsAux]
    by_cases h10 : n < 10
    · simp [h10]
    · simp [h10]

theorem mem_natDigitsAux_isDigit (f : Nat) : ∀ n c, n < f → c ∈ natDigitsAux f n →
    c.isDigit = true := by
  induction f with
  | zero => intro n c h _; omega
  | succ f2 ih =>
    intro n c h hc
    simp only [natDigitsAux] at hc
    by_cases h10 : n < 10
    · rw [if_pos h10] at hc
      simp only [List.mem_singleton] at hc
      subst hc
      exact digitChar_isDigit n h10
    · rw [if_neg h10] at hc
      rcases List.mem_append.mp hc with h1 | h1
      · exact ih (n / 10) c (by omega) h1
      · simp only [List.mem_singleton] at h1
        subst h1
        exact digitChar_isDigit (n % 10) (Nat.mod_lt n (by norm_num))

theorem parseDigitsGo_append (acc : Nat) (xs ys : List Char) :
    parseDigitsGo acc (xs ++ ys) =
      match parseDigitsGo acc xs with
      | some a => parseDigitsGo a ys
      | none => none := by
  induction xs generalizing acc with
  | nil => simp [parseDigitsGo]
  | cons c cs ih =>
    simp only [List.cons_append, parseDigitsGo]
    cases hd : digitVal c with
    | none => simp
    | some d => simp [ih]

theorem parseDigitsGo_natDigitsAux (f : Nat) : ∀ n acc, n < f →
    parseDigitsGo acc (natDigitsAux f n) =
      some (acc * 10 ^ (natDigitsAux f n).length + n) := by
  induction f with
  | zero => intro n acc h; omega
  | succ f2 ih =>
    intro n acc h
    simp only [natDigitsAux]
    by_cases h10 : n < 10
    · rw [if_pos h10]
      simp only [parseDigitsGo, digitVal_digitChar n h10, List.length_singleton]
      norm_num
    · rw [if_neg h10]
      rw [parseDigitsGo_append]
      have hlt : n / 10 < f2 := by omega
      rw [ih (n / 10) acc hlt]
      have hm : n % 10 < 10 := Nat.mod_lt n (by norm_num)
      simp only [parseDigitsGo, digitVal_digitChar (n % 10) hm,
        List.length_append, List.length_singleton]
      congr 1
      have hdm : n / 10 * 10 + n % 10 = n := by omega
      set L := (natDigitsAux f2 (n / 10)).length with hL
      calc (acc * 10 ^ L + n / 10) * 10 + n % 10
          = acc * (10 ^ L * 10) + (n / 10 * 10 + n % 10) := by ring
        _ = acc * 10 ^ (L + 1) + n := by rw [hdm, pow_succ]

theorem parseDigits_natDigits (n : Nat) : parseDigits (natDigits n) = some n := by
  have hne := natDigitsAux_ne_nil (n + 1) n (Nat.lt_succ_self n)
  have hval := parseDigitsGo_natDigitsAux (n + 1) n 0 (Nat.lt_succ_self n)
  rw [natDigits, parseDigits, if_neg (by simpa using hne)]
  rw [hval]
  norm_num

theorem dropWhile_false {p : Char → Bool} {l : List Char}
    (h : ∀ c ∈ l, p c = false) : l.dropWhile p = l := by
  cases l with
  | nil => rfl
  | cons x xs =>
    rw [List.dropWhile_cons, h x (List.mem_cons_self x xs)]
    simp

theorem stripSpaces_id {l : List Char} (h : ∀ c ∈ l, isSpaceC c = false) :
    stripSpaces l = l := by
  unfold stripSpaces
  rw [dropWhile_false h]
  rw [dropWhile_false (fun c hc => h c (List.mem_reverse.mp hc))]
  exact List.reverse_reverse l

theorem ne_of_isDigit {c : Char} (h : c.isDigit = true) (d : Char)
    (hd : d.isDigit = false) : c ≠ d := by
  intro he
  subst he
  rw [h] at hd
  cases hd

theorem isSpaceC_eq_false_of_isDigit {c : Char} (h : c.isDigit = true) :
    isSpaceC c = false := by
  by_contra hb
  have ht : isSpaceC c = true := by
    revert hb
    cases isSpaceC c <;> simp
  simp only [isSpaceC, Bool.or_eq_true, beq_iff_eq] at ht
  rcases ht with ((((h1 | h1) | h1) | h1) | h1) | h1 <;>
    (subst h1; exact absurd h (by decide))

theorem mem_natDigits_isDigit {n : Nat} {c : Char} (hc : c ∈ natDigits n) :
    c.isDigit = true :=
  mem_natDigitsAux_isDigit (n + 1) n c (Nat.lt_succ_self n) hc

theorem natDigits_head_cons (n : Nat) :
    ∃ c cs, natDigits n = c :: cs ∧ c.isDigit = true := by
  obtain ⟨c, cs, hcc⟩ :=
    List.exists_cons_of_ne_nil (natDigitsAux_ne_nil (n + 1) n (Nat.lt_succ_self n))
  refine ⟨c, cs, hcc, ?_⟩
  exact mem_natDigits_isDigit (by rw [natDigits, hcc]; exact List.mem_cons_self c cs)

/-- Roundtrip: Python `int(str(i))` recovers `i` — the year written back into
a rewritten date string parses to the same value. -/
theorem pyInt_intToChars (i : Int) : pyIntChars? (intToChars i) = some i := by
  by_cases hneg : i < 0
  · rw [intToChars, if_pos hneg]
    have hstrip : stripSpaces ('-' :: natDigits i.natAbs) = '-' :: natDigits i.natAbs := by
      apply stripSpaces_id
      intro c hc
      rcases List.mem_cons.mp hc with h1 | h1
      · subst h1; decide
      · exact isSpaceC_eq_false_of_isDigit (mem_natDigits_isDigit h1)
    have hval : -((i.natAbs : Nat) : Int) = i := by omega
    simp [pyIntChars?, hstrip, parseDigits_natDigits i.natAbs, hval]
    rw [abs_of_neg hneg, neg_neg]
  · push_neg at hneg
    rw [intToChars, if_neg (not_lt.mpr hneg)]
    have hstrip : stripSpaces (natDigits i.toNat) = natDigits i.toNat :=
      stripSpaces_id (fun c hc => isSpaceC_eq_false_of_isDigit (mem_natDigits_isDigit hc))
    obtain ⟨c, cs, hcc, hcd⟩ := natDigits_head_cons i.toNat
    have hm2 : c ≠ '-' := ne_of_isDigit hcd '-' (by decide)
    have hp2 : c ≠ '+' := ne_of_isDigit hcd '+' (by decide)
    have hpd : parseDigits (c :: cs) = some i.toNat := by
      rw [← hcc]
      exact parseDigits_natDigits i.toNat
    have hstrip2 : stripSpaces (c :: cs) = c :: cs := by
      rw [← hcc]
      exact hstrip
    have hval : ((i.toNat : Nat) : Int) = i := by omega
    simp [pyIntChars?, hcc, hstrip2, hm2, hp2, hpd, hval]

theorem intToChars_not_slash (i : Int) : '/' ∉ intToChars i := by
  intro hc
  rw [intToChars] at hc
  by_cases hn : i < 0
  · rw [if_pos hn] at hc
    rcases List.mem_cons.mp hc with h1 | h1
    · exact absurd h1 (by decide)
    · exact absurd (mem_natDigits_isDigit h1) (by decide)
  · rw [if_neg hn] at hc
    exact absurd (mem_natDigits_isDigit hc) (by decide)

theorem splitChar_three2 (c : Char) (p0 p1 y : List Char)
    (h0 : c ∉ p0) (h1 : c ∉ p1) (h2 : c ∉ y) :
    splitChar c (p0 ++ c :: p1 ++ c :: y) = [p0, p1, y] := by
  have h3 : (p0 ++ c :: p1 ++ c :: y) = p0 ++ c :: (p1 ++ c :: y) := by
    simp [List.append_assoc]
  rw [h3]
  exact splitChar_three c p0 p1 y h0 h1 h2

theorem yearE_of_WF {s : String} (h : WFDate s) : yearE s = .ok (yearDs s) := by
  obtain ⟨-, h2⟩ := h
  obtain ⟨y, hy⟩ := Option.isSome_iff_exists.mp h2
  unfold yearE yearDs
  rw [hy]
  rfl

theorem subtract100_of_WF {r : Record} (h : WFDate r.date) :
    subtract100 r = .ok (specSub100 r) ∧ WFDate (specSub100 r).date ∧
      yearD (specSub100 r) = yearD r - 100 := by
  obtain ⟨hlen, hsome⟩ := h
  obtain ⟨p0, p1, p2, hps⟩ := List.length_eq_three.mp hlen
  obtain ⟨y, hy⟩ := Option.isSome_iff_exists.mp hsome
  have hlast : lastD (splitChar '/' r.date.data) = p2 := by
    rw [hps]
    rfl
  have h0 : '/' ∉ p0 := not_mem_of_mem_splitChar _ _ _ (by rw [hps]; simp)
  have h1 : '/' ∉ p1 := not_mem_of_mem_splitChar _ _ _ (by rw [hps]; simp)
  have hyval : yearD r = y := by
    unfold yearD yearDs
    rw [hlast] at hy ⊢
    rw [hy]
    rfl
  have hnew : (specSub100 r).date.data =
      p0 ++ '/' :: p1 ++ '/' :: intToChars (yearD r - 100) := by
    simp [specSub100, hps]
  have hsplit : splitChar '/' (specSub100 r).date.data =
      [p0, p1, intToChars (yearD r - 100)] := by
    rw [hnew]
    exact splitChar_three2 '/' _ _ _ h0 h1 (intToChars_not_slash _)
  have hlast2 : lastD (splitChar '/' (specSub100 r).date.data) =
      intToChars (yearD r - 100) := by
    rw [hsplit]
    rfl
  refine ⟨?_, ⟨?_, ?_⟩, ?_⟩
  · unfold subtract100
    rw [hlast] at hy ⊢
    rw [hps, hy]
    simp only [List.get?]
    unfold specSub100
    rw [hps, hyval]
    rfl
  · rw [hsplit]
    rfl
  · rw [hlast2, pyInt_intToChars]
    rfl
  · unfold yearD yearDs
    rw [hlast2, pyInt_intToChars]
    rfl

theorem yearE_rec {r : Record} (h : WFDate r.date) : yearE r.date = .ok (yearD r) :=
  yearE_of_WF h

theorem rewriteFrom_WF {l : List Record} (h : ∀ r ∈ l, WFDate r.date) :
    rewriteFrom l = .ok (l.map specSub100) := by
  induction l with
  | nil => rfl
  | cons r rest ih =>
    have hr := subtract100_of_WF (h r (List.mem_cons_self r rest))
    simp only [rewriteFrom, hr.1,
      ih (fun x hx => h x (List.mem_cons_of_mem r hx)), List.map_cons]

theorem scanCY_noTrigger {rest : List Record} : ∀ {prev : Record},
    WFDate prev.date → (∀ r ∈ rest, WFDate r.date) →
    List.Chain' (fun a b => yearD b ≤ yearD a) (prev :: rest) →
    scanCY prev rest = .ok rest := by
  induction rest with
  | nil =>
    intro prev _ _ _
    rfl
  | cons cur rest ih =>
    intro prev hp hr hch
    rw [List.chain'_cons] at hch
    have hcur : WFDate cur.date := hr cur (List.mem_cons_self cur rest)
    simp only [scanCY, yearE_rec hcur, yearE_rec hp]
    rw [if_neg (not_lt.mpr hch.1)]
    rw [ih hcur (fun x hx => hr x (List.mem_cons_of_mem cur hx)) hch.2]

theorem scanCY_trigger_head {prev cur : Record} {rest : List Record}
    (hp : WFDate prev.date) (hc : WFDate cur.date) (hr : ∀ r ∈ rest, WFDate r.date)
    (hlt : yearD prev < yearD cur) :
    scanCY prev (cur :: rest) = .ok ((cur :: rest).map specSub100) := by
  simp only [scanCY, yearE_rec hc, yearE_rec hp]
  rw [if_pos hlt]
  apply rewriteFrom_WF
  intro r hrm
  rcases List.mem_cons.mp hrm with h1 | h1
  · exact h1 ▸ hc
  · exact hr r h1

theorem scanCY_mid {b : Record} {suf : List Record} : ∀ (pre : List Record) (prev a : Record),
    WFDate prev.date → (∀ r ∈ pre ++ a :: b :: suf, WFDate r.date) →
    List.Chain' (fun x y => yearD y ≤ yearD x) (prev :: (pre ++ [a])) →
    yearD a < yearD b →
    scanCY prev (pre ++ a :: b :: suf) = .ok (pre ++ a :: (b :: suf).map specSub100) := by
  intro pre
  induction pre with
  | nil =>
    intro prev a hprev hwf hch hab
    have ha : WFDate a.date := hwf a (by simp)
    have hb : WFDate b.date := hwf b (by simp)
    have hsuf : ∀ r ∈ suf, WFDate r.date := fun r hr => hwf r (by simp [hr])
    have hall : ∀ r ∈ b :: suf, WFDate r.date := by
      intro r hrm
      rcases List.mem_cons.mp hrm with h1 | h1
      · exact h1 ▸ hb
      · exact hsuf r h1
    simp only [List.nil_append] at hch ⊢
    rw [List.chain'_cons] at hch
    simp only [scanCY, yearE_rec ha, yearE_rec hprev, yearE_rec hb]
    rw [if_neg (not_lt.mpr hch.1), if_pos hab, rewriteFrom_WF hall]
  | cons p pre2 ih =>
    intro prev a hprev hwf hch hab
    have hp : WFDate p.date := hwf p (by simp)
    simp only [List.cons_append] at hch ⊢
    rw [List.chain'_cons] at hch
    simp only [scanCY, yearE_rec hp, yearE_rec hprev]
    rw [if_neg (not_lt.mpr hch.1)]
    rw [ih p a hp (fun r hr => hwf r (List.mem_cons_of_mem p hr)) hch.2 hab]

theorem correctYear_noTrigger {rs : List Record} (hwf : ∀ r ∈ rs, WFDate r.date)
    (hch : List.Chain' (fun a b => yearD b ≤ yearD a) rs) :
    correctYear rs = .ok rs := by
  cases rs with
  | nil => rfl
  | cons r rest =>
    simp only [correctYear]
    rw [scanCY_noTrigger (hwf r (by simp)) (fun x hx => hwf x (List.mem_cons_of_mem r hx)) hch]

theorem correctYear_trigger {pre : List Record} {a b : Record} {suf : List Record}
    (hwf : ∀ r ∈ pre ++ a :: b :: suf, WFDate r.date)
    (hch : List.Chain' (fun x y => yearD y ≤ yearD x) (pre ++ [a]))
    (hab : yearD a < yearD b) :
    correctYear (pre ++ a :: b :: suf) = .ok (pre ++ a :: (b :: suf).map specSub100) := by
  cases pre with
  | nil =>
    have ha : WFDate a.date := hwf a (by simp)
    have hb : WFDate b.date := hwf b (by simp)
    have hsuf : ∀ r ∈ suf, WFDate r.date := fun r hr => hwf r (by simp [hr])
    simp only [List.nil_append, correctYear]
    rw [scanCY_trigger_head ha hb hsuf hab]
  | cons p pre2 =>
    have hp : WFDate p.date := hwf p (by simp)
    have hch2 : List.Chain' (fun x y => yearD y ≤ yearD x) (p :: (pre2 ++ [a])) := by
      simpa using hch
    simp only [List.cons_append, correctYear]
    rw [scanCY_mid pre2 p a hp (fun r hr => hwf r (List.mem_cons_of_mem p hr)) hch2 hab]

theorem chain_map_specSub100 : ∀ {l : List Record}, (∀ r ∈ l, WFDate r.date) →
    List.Chain' (fun a b => yearD b ≤ yearD a) l →
    List.Chain' (fun a b => yearD b ≤ yearD a) (l.map specSub100) := by
  intro l
  induction l with
  | nil =>
    intro _ _
    simp
  | cons x xs ih =>
    intro hwf hch
    cases xs with
    | nil => simp
    | cons y ys =>
      rw [List.map_cons, List.map_cons, List.chain'_cons]
      rw [List.chain'_cons] at hch
      have hx := subtract100_of_WF (hwf x (by simp))
      have hy := subtract100_of_WF (hwf y (by simp))
      have h1 := hch.1
      constructor
      · rw [hx.2.2, hy.2.2]
        omega
      · have h2 := ih (fun r hr => hwf r (List.mem_cons_of_mem x hr)) hch.2
        simpa using h2

/-!
## Helper lemmas: the decoder loop
-/

theorem runLines_append (st : DecState) (l1 l2 : List String) :
    runLines st (l1 ++ l2) =
      match runLines st l1 with
      | .ok st2 => runLines st2 l2
      | .error e => .error e := by
  induction l1 generalizing st with
  | nil => simp [runLines]
  | cons l ls ih =>
    simp only [List.cons_append, runLines]
    cases h : step st l with
    | error e => rfl
    | ok st2 => exact ih st2

/-- A data-marker line reaching the decoder with a falsy `current_date`
(`None` or `""`) is dropped: no state change, no error. -/
theorem step_sohlcp_drop {st : DecState} {line : String}
    (hm : containsL line.data sohlcpMark = true)
    (ht : truthy st.currentDate = false) :
    step st line = .ok st := by
  rw [step, if_pos hm]
  cases hd : st.currentDate with
  | none => rw [stepData, hd]
  | some d =>
    rw [hd] at ht
    simp only [truthy, Bool.not_eq_false'] at ht
    simp only [stepData, hd]
    rw [if_neg]
    simp only [not_and]
    intro _
    simpa using ht

/-- A malformed numeric field among fields 2–5 of a data-marker line, in a
state with a truthy date, makes the decoder raise a float `ValueError`. -/
theorem stepData_badField {st : DecState} {d : String} {parts : List (List Char)}
    (hd : st.currentDate = some d) (hne : d ≠ "") (hlen : 6 ≤ parts.length)
    (hbad : pyFloatChars? (parts.getD 2 []) = none ∨ pyFloatChars? (parts.getD 3 []) = none ∨
      pyFloatChars? (parts.getD 4 []) = none ∨ pyFloatChars? (parts.getD 5 []) = none) :
    ∃ s, stepData st parts = .error (Err.badFloat s) := by
  simp only [stepData, hd]
  rw [if_pos ⟨hlen, hne⟩]
  cases h2 : pyFloatChars? (parts.getD 2 []) with
  | none => exact ⟨_, rfl⟩
  | some o =>
    cases h3 : pyFloatChars? (parts.getD 3 []) with
    | none => exact ⟨_, rfl⟩
    | some hi =>
      cases h4 : pyFloatChars? (parts.getD 4 []) with
      | none => exact ⟨_, rfl⟩
      | some lo =>
        cases h5 : pyFloatChars? (parts.getD 5 []) with
        | none => exact ⟨_, rfl⟩
        | some cl =>
          rcases hbad with h | h | h | h <;> simp_all

/-!
## Claim theorems
-/

/-- C2 counterexample: `correct_year` applied to records whose date strings
carry the raw years `[2023, 2024, 2099, 2099, 2000]` does NOT return the
years `[2023, 2024, 1999, 1999, 2000]` the claim states: the scan triggers
already at the first increasing pair `2023 → 2024`. -/
theorem c2_single_rollover_counterexample : correctYear c2Input ≠ .ok c2Claimed := by
  decide

/-- C2 (amended): applied to records carrying the raw years
`[2023, 2024, 2099, 2099, 2000]`, `correct_year` triggers at the first
increasing pair (2023 → 2024) and returns the years
`[2023, 1924, 1999, 1999, 1900]`, with all non-date fields unchanged. -/
theorem c2_single_rollover_actual : correctYear c2Input = .ok c2Actual := by
  decide

/-- C3: on sequences of well-formed dates, `correct_year` scans consecutive
pairs in order; if years never increase it returns the input unchanged；at
the first pair `(a, b)` with `year b > year a` (no increase anywhere before)
it subtracts 100 from the year component of every record from `b` to the end
and stops. -/
theorem c3_correct_year_algorithm (rs : List Record) (hwf : ∀ r ∈ rs, WFDate r.date) :
    (NonIncYears rs → correctYear rs = .ok rs) ∧
    (∀ pre a b suf, rs = pre ++ a :: b :: suf → NonIncYears (pre ++ [a]) →
      yearD a < yearD b →
      correctYear rs = .ok (pre ++ a :: (b :: suf).map specSub100)) := by
  constructor
  · exact fun hch => correctYear_noTrigger hwf hch
  · intro pre a b suf hrs hch hab
    subst hrs
    exact correctYear_trigger hwf hch hab

/-- Witness for C3 at a concrete two-record input with a trigger. -/
theorem c3_correct_year_algorithm_witness :
    correctYear [rec20000102, rec20991231] = .ok [rec20000102, rec19991231] := by
  have h := (c3_correct_year_algorithm [rec20000102, rec20991231]
    (by decide)).2 [] rec20000102 rec20991231 [] rfl (by decide) (by decide)
  rw [h]
  decide

/-- C5 counterexample: `c5Input` has non-decreasing (already-corrected)
years 2023 ≤ 2024, yet `correct_year` is not a no-op on it: it rewrites the
second record to year 1924. -/
theorem c5_idempotence_counterexample :
    yearD ⟨"01/01/2023", 10, 11, 12, 13⟩ ≤ yearD ⟨"01/01/2024", 20, 21, 22, 23⟩ ∧
    correctYear c5Input = .ok c5Actual ∧ c5Actual ≠ c5Input := by
  decide

/-- C5 (amended): `correct_year` is a no-op exactly on sequences whose years
never increase along consecutive records (the decoder hands it the reversed,
newest-first frame): on every well-formed sequence with non-increasing years
it returns the identical sequence. -/
theorem c5_noop_on_nonincreasing (rs : List Record) (hwf : ∀ r ∈ rs, WFDate r.date)
    (hch : NonIncYears rs) : correctYear rs = .ok rs :=
  correctYear_noTrigger hwf hch

/-- Witness for C5 (amended) on a concrete non-increasing sequence. -/
theorem c5_noop_on_nonincreasing_witness :
    correctYear [⟨"01/01/2024", 1, 2, 3, 4⟩, ⟨"01/01/2023", 5, 6, 7, 8⟩] =
      .ok [⟨"01/01/2024", 1, 2, 3, 4⟩, ⟨"01/01/2023", 5, 6, 7, 8⟩] :=
  c5_noop_on_nonincreasing _ (by decide) (by decide)

/-- C9: `get_data_files` on a missing directory fails (the
`assert data_folder.exists()` raises, the spec's `NotFoundError`); on any
existing directory it raises nothing and returns a ticker-to-file mapping. -/
theorem c9_missing_directory :
    (∀ u : Bool, getDataFiles none u = .error Err.notFound) ∧
    (∀ (entries : List DirEntry) (u : Bool), ∃ m, getDataFiles (some entries) u = .ok m) := by
  constructor
  · intro u
    rfl
  · intro entries u
    exact ⟨_, rfl⟩

/-- C1 (amended): decoding the synthetic end-to-end file, then year
correction and emission, produces exactly the rows
`01/02/2000,102,103,101,101` then `12/31/1999,100,105,99,102`, in that
order: the synthetic file is oldest-first while the code reverses the frame
assuming newest-first input, and `99` is first naively expanded to 2099 and
then corrected to 1999. -/
theorem c1_e2e_scenario :
    convertTosStrategyReport "StrategyReports_IBM_0625.csv" c1File =
      .ok ("ibm.csv", [rec20000102, rec19991231]) := by
  decide

/-- C1 counterexample: the pipeline emits exactly the two rows the claim
names but in the opposite order (`01/02/2000` first), so the claimed output
sequence `12/31/1999,… then 01/02/2000,…` is false. -/
theorem c1_e2e_scenario_counterexample :
    convertTosStrategyReport "StrategyReports_IBM_0625.csv" c1File =
      .ok ("ibm.csv", [rec20000102, rec19991231]) ∧
    [rec20000102, rec19991231] ≠ [rec19991231, rec20000102] := by
  decide

/-- C4 counterexample: on the synthetic end-to-end file the emitted sequence
has strictly DECREASING years (2000 then 1999), and the correction was not a
no-op (the decoded reversal carried 2099). -/
theorem c4_ordering_counterexample :
    convertTosStrategyReport "StrategyReports_IBM_0625.csv" c1File =
      .ok ("ibm.csv", [rec20000102, rec19991231]) ∧
    yearD rec19991231 < yearD rec20000102 ∧
    decodeTos c1File = .ok [rec20991231, rec20000102] ∧
    correctYear [rec20991231, rec20000102].reverse ≠
      .ok [rec20991231, rec20000102].reverse := by
  decide

/-- C4 (amended): for every input file whose decoded-and-reversed records
are well formed and satisfy the modelled precondition — years never
increasing, or a single adjacent increase of at most 100 (the
single-rollover shape) — the emitted sequence has non-increasing years
(newest-first; with no increase the correction is a no-op and the reversal
is emitted unchanged). -/
theorem c4_ordering_postcondition (name : String) (lines : List String) (sym : String)
    (out rs : List Record)
    (hconv : convertTosStrategyReport name lines = .ok (sym, out))
    (hdec : decodeTos lines = .ok rs)
    (hwf : ∀ r ∈ rs.reverse, WFDate r.date)
    (hpre : NonIncYears rs.reverse ∨ SingleRollover rs.reverse) :
    NonIncYears out := by
  unfold decodeTos at hdec
  unfold convertTosStrategyReport at hconv
  cases hsym : (splitChar '_' (stemChars name.data)).get? 1 with
  | none =>
    simp only [hsym] at hconv
    exact Except.noConfusion hconv
  | some symPart =>
    simp only [hsym] at hconv
    cases hrun : runLines initState lines with
    | error e =>
      simp only [hrun] at hconv
      exact Except.noConfusion hconv
    | ok st =>
      simp only [hrun] at hconv hdec
      have hst : st.data = rs := by simpa using hdec
      cases hcy : correctYear st.data.reverse with
      | error e =>
        simp only [hcy] at hconv
        exact Except.noConfusion hconv
      | ok adj =>
        simp only [hcy, Except.ok.injEq, Prod.mk.injEq] at hconv
        have hout : correctYear rs.reverse = .ok out := by
          rw [← hst, hcy, hconv.2]
        rcases hpre with hch | hro
        · rw [correctYear_noTrigger hwf hch] at hout
          simp only [Except.ok.injEq] at hout
          rw [← hout]
          exact hch
        · obtain ⟨pre, a, b, suf, heq, hch1, hab, hle, hch2⟩ := hro
          rw [heq] at hout hwf
          rw [correctYear_trigger hwf hch1 hab] at hout
          simp only [Except.ok.injEq] at hout
          rw [← hout]
          have hwfb : ∀ r ∈ b :: suf, WFDate r.date := by
            intro r hrm
            apply hwf
            simp only [List.mem_append, List.mem_cons]
            rcases List.mem_cons.mp hrm with h1 | h1
            · exact Or.inr (Or.inr (Or.inl h1))
            · exact Or.inr (Or.inr (Or.inr h1))
          have hsplit : pre ++ a :: (b :: suf).map specSub100 =
              (pre ++ [a]) ++ (b :: suf).map specSub100 := by
            simp
          unfold NonIncYears
          rw [hsplit, List.chain'_append]
          refine ⟨hch1, chain_map_specSub100 hwfb hch2, ?_⟩
          intro x hx y hy
          have hgl : (pre ++ [a]).getLast? = some a := by simp
          rw [hgl] at hx
          simp only [Option.mem_def, Option.some_inj] at hx
          subst hx
          simp only [List.map_cons, List.head?_cons, Option.mem_def, Option.some_inj] at hy
          subst hy
          have hb : WFDate b.date := hwfb b (List.mem_cons_self b suf)
          rw [(subtract100_of_WF hb).2.2]
          omega

/-- Witness for C4 (amended) on the end-to-end synthetic file: the emitted
sequence has non-increasing years. -/
theorem c4_ordering_postcondition_witness : NonIncYears [rec20000102, rec19991231] := by
  apply c4_ordering_postcondition "StrategyReports_IBM_0625.csv" c1File "ibm.csv"
    [rec20000102, rec19991231] [rec20991231, rec20000102] (by decide) (by decide) (by decide)
  right
  exact ⟨[], rec20000102, rec20991231, [], by decide, by decide, by decide, by decide, by decide⟩

/-- C6 (amended): for every close-marker line (contains `SellClose`, no
`SOHLCP`) with at least six semicolon-separated fields, the sixth field
(index 5) is taken as the date string; if it contains a slash and its
trailing slash-component has exactly two CHARACTERS whose integer parse is
`y`, the new trade-date context is the FIRST and SECOND slash-components
joined with `2000 + y` (for three-component dates this replaces the year;
further components are dropped); otherwise the field is used as the date
context unchanged.  Records are untouched in both cases. -/
theorem c6_naive_expansion (line : String) (st : DecState)
    (hsell : containsL line.data sellCloseMark = true)
    (hdata : containsL line.data sohlcpMark = false)
    (hlen : 6 ≤ (splitChar ';' line.data).length) :
    (¬ (containsL (sixthField line) ['/'] = true ∧
        (lastD (splitChar '/' (sixthField line))).length = 2) →
      step st line = .ok { st with currentDate := some (String.mk (sixthField line)) }) ∧
    (∀ y : Int, (containsL (sixthField line) ['/'] = true ∧
        (lastD (splitChar '/' (sixthField line))).length = 2) →
      pyIntChars? (lastD (splitChar '/' (sixthField line))) = some y →
      step st line = .ok { st with currentDate := some (String.mk
        ((splitChar '/' (sixthField line)).getD 0 [] ++ '/' ::
         (splitChar '/' (sixthField line)).getD 1 [] ++ '/' :: intToChars (2000 + y))) }) := by
  have hstep : step st line = stepDate st (sixthField line) := by
    rw [step, if_neg (by simp [hdata]), if_pos hsell, stepClose, if_pos hlen]
    rfl
  constructor
  · intro hc
    rw [hstep, stepDate, if_neg hc]
  · intro y hc hy
    rw [hstep, stepDate, if_pos hc]
    simp only [hy]

/-- Witness for C6 (amended): the two-character branch on the `c6Line` date
`1/2/3/99`, and the unchanged branch on a slashless date field. -/
theorem c6_naive_expansion_witness :
    step initState c6Line = .ok ⟨some "1/2/2099", []⟩ ∧
    step initState "SellClose;a;b;c;d;NODATE;x\n" = .ok ⟨some "NODATE", []⟩ := by
  constructor
  · have h := (c6_naive_expansion c6Line initState (by decide) (by decide) (by decide)).2
      99 (by decide) (by decide)
    rw [h]
    decide
  · have h := (c6_naive_expansion "SellClose;a;b;c;d;NODATE;x\n" initState
      (by decide) (by decide) (by decide)).1 (by decide)
    rw [h]
    decide

/-- C6 counterexample: for the close-marker line with date field `1/2/3/99`
(trailing component `99`, exactly two digits) the code sets the context to
`1/2/2099` — NOT to `1/2/3/2099`, which is what "that date with the year
replaced by 2000 plus the two-digit value" would give. -/
theorem c6_naive_expansion_counterexample :
    step initState c6Line = .ok ⟨some "1/2/2099", []⟩ ∧
    ("1/2/2099" : String) ≠ "1/2/3/2099" := by
  decide

/-- C7 counterexample: the same `ValueError` (`float` on `"abc"`) is raised
whether the malformed data-marker line is line 2 of the file (`c7FileA`) or
line 3 (`c7FileB`): the error is identical in the two runs and carries only
the offending text, never the offending line number.  The conversion as a
whole fails, so no output CSV is produced. -/
theorem c7_parse_failure_counterexample :
    decodeTos c7FileA = .error (Err.badFloat "abc") ∧
    decodeTos c7FileB = .error (Err.badFloat "abc") ∧
    convertTosStrategyReport "StrategyReports_IBM_0625.csv" c7FileA =
      .error (Err.badFloat "abc") := by
  decide

/-- C7 (amended): for every file containing a data-marker line, reached
with a truthy trade-date context, that has at least six pipe-delimited
fields one of whose fields 2–5 is non-numeric after comma stripping, the
decode of the file fails with the `ValueError` of `float` (carrying the
offending text); no records are emitted (and hence no output CSV is
produced for the file). -/
theorem c7_parse_failure (pre suf : List String) (bad : String) (st : DecState) (d : String)
    (h1 : runLines initState pre = .ok st)
    (hd : st.currentDate = some d) (hne : d ≠ "")
    (hm : containsL bad.data sohlcpMark = true)
    (hlen : 6 ≤ (dataParts bad).length)
    (hbad : pyFloatChars? ((dataParts bad).getD 2 []) = none ∨
      pyFloatChars? ((dataParts bad).getD 3 []) = none ∨
      pyFloatChars? ((dataParts bad).getD 4 []) = none ∨
      pyFloatChars? ((dataParts bad).getD 5 []) = none) :
    ∃ s, decodeTos (pre ++ bad :: suf) = .error (Err.badFloat s) := by
  obtain ⟨s, hs⟩ := stepData_badField hd hne hlen hbad
  refine ⟨s, ?_⟩
  have hstep : step st bad = .error (Err.badFloat s) := by
    rw [step, if_pos hm]
    exact hs
  unfold decodeTos
  rw [runLines_append, h1]
  simp only [runLines, hstep]

/-- Witness for C7 (amended) on a concrete file whose second line has the
non-numeric field `1x`. -/
theorem c7_parse_failure_witness :
    ∃ s, decodeTos ["SellClose;a;b;c;d;12/31/99;x\n", "SOHLCP|q|1x|105|99|102\n"] =
      .error (Err.badFloat s) := by
  have h := c7_parse_failure ["SellClose;a;b;c;d;12/31/99;x\n"] [] "SOHLCP|q|1x|105|99|102\n"
    ⟨some "12/31/2099", []⟩ "12/31/2099" (by decide) rfl (by decide) (by decide) (by decide)
    (Or.inl (by decide))
  simpa using h

/-- C8: a data-marker (`SOHLCP`) line reached before any close-marker line
has established a (truthy) trade-date context is silently dropped: no record
is emitted for it, no error is raised, and decoding the remaining lines
proceeds exactly as if the line were absent. -/
theorem c8_drop_without_date (pre suf : List String) (l : String) (st : DecState)
    (h1 : runLines initState pre = .ok st)
    (h2 : truthy st.currentDate = false)
    (h3 : containsL l.data sohlcpMark = true) :
    decodeTos (pre ++ l :: suf) = decodeTos (pre ++ suf) := by
  unfold decodeTos
  rw [runLines_append, runLines_append, h1]
  have hstep := step_sohlcp_drop h3 h2
  simp only [runLines, hstep]

/-- Witness for C8: a data line directly after a markerless line is dropped
and decoding continues. -/
theorem c8_drop_without_date_witness :
    decodeTos ["junk\n", "SOHLCP|q|100|105|99|102\n"] = decodeTos ["junk\n"] := by
  have h := c8_drop_without_date ["junk\n"] [] "SOHLCP|q|100|105|99|102\n" initState
    (by decide) (by decide) (by decide)
  simpa using h

/-- C10: `convert_tos_strategy_report` extracts the ticker as the second
underscore-separated component of the filename stem, lowercased (the output
file is `<symbol>.csv`); for every file name whose stem contains no
underscore it fails with an `IndexError` before decoding any line (the
failure is independent of the file contents). -/
theorem c10_filename_precondition :
    (∀ (name : String) (lines : List String), '_' ∉ stemChars name.data →
      convertTosStrategyReport name lines = .error Err.indexError) ∧
    (∀ (name : String) (lines : List String) (sym : String) (out : List Record)
      (p : List Char), (splitChar '_' (stemChars name.data)).get? 1 = some p →
      convertTosStrategyReport name lines = .ok (sym, out) →
      sym = String.mk (p.map Char.toLower) ++ ".csv") := by
  constructor
  · intro name lines hnu
    unfold convertTosStrategyReport
    rw [splitChar_no_sep _ _ hnu]
    rfl
  · intro name lines sym out p hp hok
    unfold convertTosStrategyReport at hok
    simp only [hp] at hok
    cases hrun : runLines initState lines with
    | error e =>
      simp only [hrun] at hok
      exact Except.noConfusion hok
    | ok st =>
      simp only [hrun] at hok
      cases hcy : correctYear st.data.reverse with
      | error e =>
        simp only [hcy] at hok
        exact Except.noConfusion hok
      | ok adj =>
        simp only [hcy, Except.ok.injEq, Prod.mk.injEq] at hok
        exact hok.1.symm

/-- Witness for C10: a plain `<TICKER>.csv` name fails with the index
error; a vendor-style name yields the lowercased second component. -/
theorem c10_filename_precondition_witness :
    convertTosStrategyReport "AAPL.csv" [] = .error Err.indexError ∧
    ("ibm.csv" : String) = String.mk (("IBM".data).map Char.toLower) ++ ".csv" := by
  constructor
  · exact c10_filename_precondition.1 "AAPL.csv" [] (by decide)
  · exact c10_filename_precondition.2 "StrategyReports_IBM_0625.csv" c1File "ibm.csv"
      [rec20000102, rec19991231] "IBM".data (by decide) (by decide)
